import Mathlib

/-!
Verification of the snake game in `the_snake.py`.

The movement/growth/self-collision core of the game is embedded shallowly:
cells are pairs of integers, the snake is a structure mirroring the fields of
the Python `Snake` class, and each method becomes a pure state-transformer.
Python's `%` on integers with a positive divisor agrees with `Int.emod`, which
is what `%` means on `ℤ` here.  Random draws (`random.randint`) are modelled
as explicit integer inputs constrained to the interval the library call uses.
-/

namespace TheSnake

/-- A board cell, in pixel coordinates: an integer pair `(x, y)`. -/
abbrev Cell := ℤ × ℤ

def SCREEN_WIDTH : ℤ := 640

def SCREEN_HEIGHT : ℤ := 480

def GRID_SIZE : ℤ := 20

def GRID_WIDTH : ℤ := SCREEN_WIDTH / GRID_SIZE

def GRID_HEIGHT : ℤ := SCREEN_HEIGHT / GRID_SIZE

def UP : Cell := (0, -GRID_SIZE)

def DOWN : Cell := (0, GRID_SIZE)

def LEFT : Cell := (-GRID_SIZE, 0)

def RIGHT : Cell := (GRID_SIZE, 0)

/-- The mutable state of the Python `Snake` object (colour omitted: it never
changes and no claim mentions it). -/
structure Snake where
  length : ℕ
  positions : List Cell
  direction : Cell
  position : Cell
  deriving DecidableEq, Repr

/-- `Snake.__init__`: length 1, centered, moving right. -/
def initialSnake : Snake :=
  { length := 1
    positions := [(SCREEN_WIDTH / 2, SCREEN_HEIGHT / 2)]
    direction := (GRID_SIZE, 0)
    position := (SCREEN_WIDTH / 2, SCREEN_HEIGHT / 2) }

/-- `Snake.get_head_position`: `self.positions[0]`. -/
def get_head_position (s : Snake) : Cell := s.positions.headI

/-- `Snake.update_direction(new_direction)`. -/
def update_direction (s : Snake) (nd : Cell) : Snake :=
  if (nd.1 * -1, nd.2 * -1) ≠ s.direction then { s with direction := nd } else s

/-- The wrap-around normalisation performed inline in `Snake.move`:
componentwise `%` by the screen dimensions. -/
def wrap (c : Cell) : Cell := (c.1 % SCREEN_WIDTH, c.2 % SCREEN_HEIGHT)

/-- `Snake.reset`: back to the initial state. -/
def reset (s : Snake) : Snake :=
  { s with
    length := 1
    positions := [(SCREEN_WIDTH / 2, SCREEN_HEIGHT / 2)]
    direction := (GRID_SIZE, 0)
    position := (SCREEN_WIDTH / 2, SCREEN_HEIGHT / 2) }

/-- The wrapped new head cell computed at the top of `Snake.move`
(source lines 111-119). -/
def new_head_position (s : Snake) : Cell :=
  wrap ((get_head_position s).1 + s.direction.1,
        (get_head_position s).2 + s.direction.2)

/-- `Snake.move`: compute the wrapped new head, reset on collision with
`positions[2:]`, otherwise prepend and trim the tail when the body list
exceeds `length`. -/
def move (s : Snake) : Snake :=
  if new_head_position s ∈ s.positions.drop 2 then reset s
  else
    let s1 := { s with
      positions := new_head_position s :: s.positions
      position := new_head_position s }
    if s1.positions.length > s1.length then
      { s1 with positions := s1.positions.dropLast }
    else s1

/-- `Apple.randomize_position`, with the two `random.randint` outcomes as
explicit inputs `rx`, `ry` (each drawn from `0 .. SCREEN_DIM // GRID_SIZE - 1`
inclusive). -/
def randomize_position (rx ry : ℤ) : Cell := (rx * GRID_SIZE, ry * GRID_SIZE)

/-- The four direction vectors `handle_keys` can request. -/
def arrowDirs : List Cell := [UP, DOWN, LEFT, RIGHT]

/-- `handle_keys`: applies a finite sequence of direction requests, one
`update_direction` per key event. -/
def applyRequests (reqs : List Cell) (s : Snake) : Snake :=
  reqs.foldl update_direction s

/-- The state `main` threads through its loop: the snake and the apple
position. -/
structure Game where
  snake : Snake
  apple : Cell
  deriving DecidableEq, Repr

/-- One iteration of the loop in `main`: handle key events, move, then on
head-apple overlap increment `length` and re-randomize the apple (with the
draws `rx`, `ry`). -/
def mainTick (reqs : List Cell) (rx ry : ℤ) (g : Game) : Game :=
  let s1 := applyRequests reqs g.snake
  let s2 := move s1
  if get_head_position s2 = g.apple then
    { snake := { s2 with length := s2.length + 1 }
      apple := randomize_position rx ry }
  else
    { snake := s2, apple := g.apple }

/-- Game states reachable by `main`: the initial snake together with a
randomly placed apple, closed under ticks whose key requests are arrow
directions and whose random draws are in `randint`'s range. -/
inductive Reachable : Game → Prop where
  | init (rx ry : ℤ) (hx0 : 0 ≤ rx) (hx1 : rx ≤ GRID_WIDTH - 1)
      (hy0 : 0 ≤ ry) (hy1 : ry ≤ GRID_HEIGHT - 1) :
      Reachable { snake := initialSnake, apple := randomize_position rx ry }
  | tick (g : Game) (reqs : List Cell) (rx ry : ℤ)
      (hreqs : ∀ r ∈ reqs, r ∈ arrowDirs)
      (hx0 : 0 ≤ rx) (hx1 : rx ≤ GRID_WIDTH - 1)
      (hy0 : 0 ≤ ry) (hy1 : ry ≤ GRID_HEIGHT - 1)
      (hg : Reachable g) :
      Reachable (mainTick reqs rx ry g)

/-! ### Basic lemmas about `move` -/

theorem move_of_mem {s : Snake}
    (h : new_head_position s ∈ s.positions.drop 2) : move s = reset s := by
  simp [move, h]

theorem move_positions_of_not_mem {s : Snake}
    (h : new_head_position s ∉ s.positions.drop 2) :
    (move s).positions =
      if (new_head_position s :: s.positions).length > s.length then
        (new_head_position s :: s.positions).dropLast
      else new_head_position s :: s.positions := by
  simp only [move, if_neg h]
  split <;> rfl

theorem move_length_of_not_mem {s : Snake}
    (h : new_head_position s ∉ s.positions.drop 2) :
    (move s).length = s.length := by
  simp only [move, if_neg h]
  split <;> rfl

theorem move_direction_of_not_mem {s : Snake}
    (h : new_head_position s ∉ s.positions.drop 2) :
    (move s).direction = s.direction := by
  simp only [move, if_neg h]
  split <;> rfl

theorem headI_dropLast_cons (a : Cell) (l : List Cell) (hl : l ≠ []) :
    ((a :: l).dropLast).headI = a := by
  cases l with
  | nil => exact absurd rfl hl
  | cons b t => rw [List.dropLast_cons₂]; rfl

theorem move_headI_of_not_mem {s : Snake} (hne : s.positions ≠ [])
    (h : new_head_position s ∉ s.positions.drop 2) :
    (move s).positions.headI = new_head_position s := by
  rw [move_positions_of_not_mem h]
  split
  · exact headI_dropLast_cons _ _ hne
  · rfl

/-! ### Claim theorems -/

/-- C1: when the wrapped new head is not in `positions[2:]`, `move` prepends
it (it becomes the head, `positions[0]`), then removes exactly the last
element iff the body list now exceeds `length`; `length` and `direction` are
unchanged. -/
theorem move_prepend_trim (s : Snake) (hne : s.positions ≠ [])
    (h : new_head_position s ∉ s.positions.drop 2) :
    (move s).positions =
      (if (new_head_position s :: s.positions).length > s.length then
        (new_head_position s :: s.positions).dropLast
      else new_head_position s :: s.positions) ∧
    (move s).positions.headI = new_head_position s ∧
    (move s).length = s.length ∧
    (move s).direction = s.direction :=
  ⟨move_positions_of_not_mem h, move_headI_of_not_mem hne h,
    move_length_of_not_mem h, move_direction_of_not_mem h⟩

/-- Witness for C1: a concrete snake of length 3 moving right with no
self-collision; the move prepends the wrapped head and drops the tail. -/
theorem move_prepend_trim_witness :
    (Snake.mk 3 [((320 : ℤ), (240 : ℤ)), (300, 240), (280, 240)]
        (20, 0) (320, 240)).positions ≠ [] ∧
    new_head_position (Snake.mk 3 [((320 : ℤ), (240 : ℤ)), (300, 240), (280, 240)]
        (20, 0) (320, 240)) ∉
      (Snake.mk 3 [((320 : ℤ), (240 : ℤ)), (300, 240), (280, 240)]
        (20, 0) (320, 240)).positions.drop 2 ∧
    (move (Snake.mk 3 [((320 : ℤ), (240 : ℤ)), (300, 240), (280, 240)]
        (20, 0) (320, 240))).positions = [(340, 240), (320, 240), (300, 240)] := by
  refine ⟨by decide, by decide, ?_⟩
  rw [(move_prepend_trim _ (by decide) (by decide)).1]
  decide

/-- C2: when the wrapped new head lies in `positions[2:]`, `move` resets the
snake in place (`length = 1`, a single centered cell, direction `RIGHT`)
without inserting the new head; in every other case the new head is inserted
at the front and no reset occurs (`length` and `direction` are kept). -/
theorem move_self_collision_reset (s : Snake) (hne : s.positions ≠ []) :
    (new_head_position s ∈ s.positions.drop 2 →
      (move s).length = 1 ∧
      (move s).positions = [(SCREEN_WIDTH / 2, SCREEN_HEIGHT / 2)] ∧
      (move s).direction = RIGHT) ∧
    (new_head_position s ∉ s.positions.drop 2 →
      (move s).positions.headI = new_head_position s ∧
      (move s).length = s.length ∧
      (move s).direction = s.direction) := by
  constructor
  · intro h
    rw [move_of_mem h]
    exact ⟨rfl, rfl, rfl⟩
  · intro h
    exact ⟨move_headI_of_not_mem hne h, move_length_of_not_mem h,
      move_direction_of_not_mem h⟩

/-- Witness for C2: a length-4 snake curling back onto its own body: moving
right from `(300, 240)` hits `(320, 240)`, which is `positions[3]`, so the
move resets the snake to the centered initial state. -/
theorem move_self_collision_reset_witness :
    (Snake.mk 4 [((300 : ℤ), (240 : ℤ)), (300, 220), (320, 220), (320, 240)]
        (20, 0) (300, 240)).positions ≠ [] ∧
    new_head_position (Snake.mk 4 [((300 : ℤ), (240 : ℤ)), (300, 220), (320, 220), (320, 240)]
        (20, 0) (300, 240)) ∈
      (Snake.mk 4 [((300 : ℤ), (240 : ℤ)), (300, 220), (320, 220), (320, 240)]
        (20, 0) (300, 240)).positions.drop 2 ∧
    (move (Snake.mk 4 [((300 : ℤ), (240 : ℤ)), (300, 220), (320, 220), (320, 240)]
        (20, 0) (300, 240))).length = 1 ∧
    (move (Snake.mk 4 [((300 : ℤ), (240 : ℤ)), (300, 220), (320, 220), (320, 240)]
        (20, 0) (300, 240))).positions = [(SCREEN_WIDTH / 2, SCREEN_HEIGHT / 2)] ∧
    (move (Snake.mk 4 [((300 : ℤ), (240 : ℤ)), (300, 220), (320, 220), (320, 240)]
        (20, 0) (300, 240))).direction = RIGHT := by
  refine ⟨by decide, by decide, ?_⟩
  exact (move_self_collision_reset _ (by decide)).1 (by decide)

/-- C6: for every cell and every direction step, the wrapped cell computed in
`move` lies in `[0, 640) × [0, 480)`: each component is a Python-style modulo
by a positive divisor, hence non-negative and below the bound. -/
theorem wrap_in_bounds (c d : Cell) :
    0 ≤ (wrap (c.1 + d.1, c.2 + d.2)).1 ∧
    (wrap (c.1 + d.1, c.2 + d.2)).1 < SCREEN_WIDTH ∧
    0 ≤ (wrap (c.1 + d.1, c.2 + d.2)).2 ∧
    (wrap (c.1 + d.1, c.2 + d.2)).2 < SCREEN_HEIGHT := by
  simp only [wrap, SCREEN_WIDTH, SCREEN_HEIGHT]
  refine ⟨?_, ?_, ?_, ?_⟩ <;> omega

/-- C7: if the body list does not exceed `length` before a move, it does not
exceed it after the move's tail-trim either. -/
theorem move_preserves_length_bound (s : Snake)
    (h : s.positions.length ≤ s.length) :
    (move s).positions.length ≤ (move s).length := by
  by_cases hc : new_head_position s ∈ s.positions.drop 2
  · rw [move_of_mem hc]; simp [reset]
  · rw [move_positions_of_not_mem hc, move_length_of_not_mem hc]
    split <;> simp_all

/-- Witness for C7: a concrete snake with `len(positions) = length = 2` keeps
`len(positions) ≤ length` after a move. -/
theorem move_preserves_length_bound_witness :
    (Snake.mk 2 [((320 : ℤ), (240 : ℤ)), (300, 240)] (20, 0) (320, 240)).positions.length ≤
      (Snake.mk 2 [((320 : ℤ), (240 : ℤ)), (300, 240)] (20, 0) (320, 240)).length ∧
    (move (Snake.mk 2 [((320 : ℤ), (240 : ℤ)), (300, 240)] (20, 0) (320, 240))).positions.length ≤
      (move (Snake.mk 2 [((320 : ℤ), (240 : ℤ)), (300, 240)] (20, 0) (320, 240))).length :=
  ⟨by decide, move_preserves_length_bound _ (by decide)⟩

/-- C10: a snake whose body list has at most two cells can never trigger a
reset in `move`: `positions[2:]` is empty, so the collision branch is
unreachable and the move always prepends the new head (trimming as usual),
keeping `length` and `direction`. -/
theorem move_short_snake_no_reset (s : Snake) (hne : s.positions ≠ [])
    (h2 : s.positions.length ≤ 2) :
    new_head_position s ∉ s.positions.drop 2 ∧
    (move s).positions =
      (if (new_head_position s :: s.positions).length > s.length then
        (new_head_position s :: s.positions).dropLast
      else new_head_position s :: s.positions) ∧
    (move s).positions.headI = new_head_position s ∧
    (move s).length = s.length ∧
    (move s).direction = s.direction := by
  have hdrop : s.positions.drop 2 = [] := List.drop_eq_nil_of_le h2
  have h : new_head_position s ∉ s.positions.drop 2 := by
    rw [hdrop]; exact List.not_mem_nil _
  exact ⟨h, move_positions_of_not_mem h, move_headI_of_not_mem hne h,
    move_length_of_not_mem h, move_direction_of_not_mem h⟩

/-- Witness for C10: the freshly constructed snake (one cell) moves without
any possibility of reset. -/
theorem move_short_snake_no_reset_witness :
    initialSnake.positions ≠ [] ∧
    initialSnake.positions.length ≤ 2 ∧
    (move initialSnake).length = initialSnake.length ∧
    (move initialSnake).positions.headI = new_head_position initialSnake :=
  ⟨by decide, by decide,
    (move_short_snake_no_reset initialSnake (by decide) (by decide)).2.2.2.1,
    (move_short_snake_no_reset initialSnake (by decide) (by decide)).2.2.1⟩

theorem neg_pair_eq_iff (r D : Cell) :
    (r.1 * -1, r.2 * -1) = D ↔ r = (-D.1, -D.2) := by
  rw [Prod.ext_iff, Prod.ext_iff]
  constructor <;> rintro ⟨h1, h2⟩ <;> constructor <;> omega

theorem ne_neg_self {D : Cell} (hD : D ≠ ((0 : ℤ), (0 : ℤ))) :
    D ≠ (-D.1, -D.2) := by
  intro h
  apply hD
  rw [Prod.ext_iff] at h ⊢
  obtain ⟨h1, h2⟩ := h
  exact ⟨by omega, by omega⟩

/-- C3 counterexample: quantified over arbitrary integer pairs, "the
direction after an `update_direction` call is never the negation of the
direction before it" is false: with current direction `(0, 0)` and request
`(0, 0)` the direction stays `(0, 0)`, which is its own componentwise
negation. -/
theorem update_direction_reversal_cex :
    ¬ ∀ (s : Snake) (r : Cell),
        (update_direction s r).direction ≠
          (-(s.direction.1), -(s.direction.2)) := by
  intro h
  exact h (Snake.mk 1 [((320 : ℤ), (240 : ℤ))] (0, 0) (320, 240)) (0, 0)
    (by decide)

/-- C3 (amended): whenever the current direction `D` is not `(0, 0)` — as
all four game directions are — `update_direction` sets the direction to the
request `R` iff `R` is not the componentwise negation of `D`; when `R = -D`
the direction is unchanged and no error is raised; and the direction after
the call is never the negation of the direction before it. -/
theorem update_direction_no_reversal (s : Snake) (r : Cell)
    (hD : s.direction ≠ ((0 : ℤ), (0 : ℤ))) :
    ((update_direction s r).direction = r ↔
      r ≠ (-(s.direction.1), -(s.direction.2))) ∧
    (r = (-(s.direction.1), -(s.direction.2)) →
      (update_direction s r).direction = s.direction) ∧
    (update_direction s r).direction ≠
      (-(s.direction.1), -(s.direction.2)) := by
  simp only [update_direction]
  split
  case isTrue h =>
    have hr : r ≠ (-(s.direction.1), -(s.direction.2)) :=
      (not_congr (neg_pair_eq_iff r s.direction)).mp h
    exact ⟨by simpa using hr, fun hcon => absurd hcon hr, by simpa using hr⟩
  case isFalse h =>
    rw [not_not] at h
    have hr : r = (-(s.direction.1), -(s.direction.2)) :=
      (neg_pair_eq_iff r s.direction).mp h
    refine ⟨?_, fun _ => rfl, ne_neg_self hD⟩
    constructor
    · intro hDr
      rw [hr] at hDr
      exact absurd hDr (ne_neg_self hD)
    · intro hrne
      exact absurd hr hrne

/-- Witness for C3 (amended): the initial snake (direction `RIGHT`, nonzero)
with request `UP`. -/
theorem update_direction_no_reversal_witness :
    initialSnake.direction ≠ ((0 : ℤ), (0 : ℤ)) ∧
    (((update_direction initialSnake UP).direction = UP ↔
        UP ≠ (-(initialSnake.direction.1), -(initialSnake.direction.2))) ∧
      (UP = (-(initialSnake.direction.1), -(initialSnake.direction.2)) →
        (update_direction initialSnake UP).direction = initialSnake.direction) ∧
      (update_direction initialSnake UP).direction ≠
        (-(initialSnake.direction.1), -(initialSnake.direction.2))) :=
  ⟨by decide, update_direction_no_reversal initialSnake UP (by decide)⟩

/-- C8: on a tick of `main`, if after `move` the head equals the apple's
position then `length` is incremented by exactly one and the apple is
re-randomized from the fresh draws; otherwise the snake is exactly the moved
snake (length unchanged) and the apple is unchanged. -/
theorem tick_apple_growth (g : Game) (reqs : List Cell) (rx ry : ℤ) :
    (get_head_position (move (applyRequests reqs g.snake)) = g.apple →
      (mainTick reqs rx ry g).snake.length
          = (move (applyRequests reqs g.snake)).length + 1 ∧
      (mainTick reqs rx ry g).apple = randomize_position rx ry) ∧
    (get_head_position (move (applyRequests reqs g.snake)) ≠ g.apple →
      (mainTick reqs rx ry g).snake = move (applyRequests reqs g.snake) ∧
      (mainTick reqs rx ry g).apple = g.apple) := by
  constructor
  · intro h
    simp [mainTick, h]
  · intro h
    simp [mainTick, h]

/-- Witness for C8: the initial snake moving right onto an apple at
`(340, 240)`: the length grows from 1 to 2 and the apple is re-drawn. -/
theorem tick_apple_growth_witness :
    get_head_position (move (applyRequests [] initialSnake)) = ((340 : ℤ), (240 : ℤ)) ∧
    (mainTick [] 0 0 { snake := initialSnake, apple := ((340 : ℤ), (240 : ℤ)) }).snake.length
        = (move (applyRequests [] initialSnake)).length + 1 ∧
    (mainTick [] 0 0 { snake := initialSnake, apple := ((340 : ℤ), (240 : ℤ)) }).apple
        = randomize_position 0 0 :=
  ⟨by decide,
    (tick_apple_growth { snake := initialSnake, apple := (340, 240) } [] 0 0).1
      (by decide)⟩

/-- C9: the apple cells produced by `randomize_position` from draws in
`randint`'s ranges are exactly the grid-aligned cells strictly inside the
board (`x ∈ {0, 20, ..., 620}`, `y ∈ {0, 20, ..., 460}`), and distinct draw
pairs give distinct cells (so the cell is uniform iff the draws are); the
function consults no snake state and is total. -/
theorem randomize_position_range :
    (∀ p : Cell,
      (∃ rx ry : ℤ, 0 ≤ rx ∧ rx ≤ GRID_WIDTH - 1 ∧ 0 ≤ ry ∧
          ry ≤ GRID_HEIGHT - 1 ∧ randomize_position rx ry = p) ↔
      (GRID_SIZE ∣ p.1 ∧ GRID_SIZE ∣ p.2 ∧
        0 ≤ p.1 ∧ p.1 < SCREEN_WIDTH ∧ 0 ≤ p.2 ∧ p.2 < SCREEN_HEIGHT)) ∧
    (∀ rx ry rx' ry' : ℤ,
      randomize_position rx ry = randomize_position rx' ry' →
        rx = rx' ∧ ry = ry') := by
  constructor
  · intro p
    constructor
    · rintro ⟨rx, ry, h0, h1, h2, h3, hp⟩
      subst hp
      simp only [randomize_position, GRID_WIDTH, GRID_HEIGHT, GRID_SIZE,
        SCREEN_WIDTH, SCREEN_HEIGHT] at *
      refine ⟨⟨rx, mul_comm rx 20⟩, ⟨ry, mul_comm ry 20⟩, ?_, ?_, ?_, ?_⟩ <;> omega
    · rintro ⟨⟨kx, hkx⟩, ⟨ky, hky⟩, h1, h2, h3, h4⟩
      refine ⟨kx, ky, ?_, ?_, ?_, ?_, ?_⟩ <;>
        simp only [randomize_position, GRID_WIDTH, GRID_HEIGHT, GRID_SIZE,
          SCREEN_WIDTH, SCREEN_HEIGHT, Prod.ext_iff] at * <;> omega
  · intro rx ry rx' ry' h
    simp only [randomize_position, GRID_SIZE, Prod.ext_iff] at h
    omega

/-- Witness for C9: the cell `(40, 60)` is grid-aligned and in-board, and the
theorem produces in-range draws realizing it. -/
theorem randomize_position_range_witness :
    ∃ rx ry : ℤ, 0 ≤ rx ∧ rx ≤ GRID_WIDTH - 1 ∧ 0 ≤ ry ∧
      ry ≤ GRID_HEIGHT - 1 ∧ randomize_position rx ry = ((40 : ℤ), (60 : ℤ)) :=
  (randomize_position_range.1 (40, 60)).mpr
    (by norm_num [GRID_SIZE, SCREEN_WIDTH, SCREEN_HEIGHT])

/-! ### Invariants of reachable game states -/

/-- A cell in canonical board coordinates. -/
def inBoard (c : Cell) : Prop :=
  0 ≤ c.1 ∧ c.1 < SCREEN_WIDTH ∧ 0 ≤ c.2 ∧ c.2 < SCREEN_HEIGHT

instance (c : Cell) : Decidable (inBoard c) := by
  unfold inBoard; infer_instance

/-- The head is one wrapped step along `d` from the neck (trivial for bodies
shorter than two cells). -/
def neckLinked (l : List Cell) (d : Cell) : Prop :=
  match l with
  | p0 :: p1 :: _ => p0 = wrap (p1.1 + d.1, p1.2 + d.2)
  | _ => True

/-- The invariant every snake reachable at a tick boundary satisfies. -/
def SnakeInv (s : Snake) : Prop :=
  s.positions ≠ [] ∧
  (∀ p ∈ s.positions, inBoard p) ∧
  s.direction ∈ arrowDirs ∧
  (s.positions.length = s.length ∨ s.positions.length + 1 = s.length) ∧
  neckLinked s.positions s.direction

theorem update_direction_positions (s : Snake) (nd : Cell) :
    (update_direction s nd).positions = s.positions := by
  simp only [update_direction]
  split <;> rfl

theorem update_direction_length (s : Snake) (nd : Cell) :
    (update_direction s nd).length = s.length := by
  simp only [update_direction]
  split <;> rfl

theorem update_direction_dir_mem {s : Snake} {nd : Cell}
    (hnd : nd ∈ arrowDirs) (hs : s.direction ∈ arrowDirs) :
    (update_direction s nd).direction ∈ arrowDirs := by
  simp only [update_direction]
  split <;> [exact hnd; exact hs]

theorem applyRequests_positions (reqs : List Cell) (s : Snake) :
    (applyRequests reqs s).positions = s.positions := by
  induction reqs generalizing s with
  | nil => rfl
  | cons r t ih =>
      rw [applyRequests, List.foldl_cons, ← applyRequests, ih,
        update_direction_positions]

theorem applyRequests_length (reqs : List Cell) (s : Snake) :
    (applyRequests reqs s).length = s.length := by
  induction reqs generalizing s with
  | nil => rfl
  | cons r t ih =>
      rw [applyRequests, List.foldl_cons, ← applyRequests, ih,
        update_direction_length]

theorem applyRequests_dir_mem {reqs : List Cell} {s : Snake}
    (hreqs : ∀ r ∈ reqs, r ∈ arrowDirs) (hs : s.direction ∈ arrowDirs) :
    (applyRequests reqs s).direction ∈ arrowDirs := by
  induction reqs generalizing s with
  | nil => exact hs
  | cons r t ih =>
      rw [applyRequests, List.foldl_cons, ← applyRequests]
      exact ih (fun x hx => hreqs x (List.mem_cons_of_mem r hx))
        (update_direction_dir_mem (hreqs r (List.mem_cons_self r t)) hs)

theorem wrap_inBoard (c : Cell) : inBoard (wrap c) := by
  simp only [inBoard, wrap, SCREEN_WIDTH, SCREEN_HEIGHT]
  refine ⟨?_, ?_, ?_, ?_⟩ <;> omega

theorem move_length_eq {s : Snake} (h1 : s.positions ≠ [])
    (h4 : s.positions.length ≤ s.length)
    (h5 : s.length ≤ s.positions.length + 1) :
    (move s).positions.length = (move s).length := by
  by_cases hc : new_head_position s ∈ s.positions.drop 2
  · rw [move_of_mem hc]
    simp [reset]
  · rw [move_positions_of_not_mem hc, move_length_of_not_mem hc]
    have hpos : 0 < s.positions.length := List.length_pos.mpr h1
    split
    next h => simp only [List.length_dropLast, List.length_cons] at *; omega
    next h => simp only [List.length_cons] at *; omega

theorem snakeInv_move {s : Snake} (h1 : s.positions ≠ [])
    (h2 : ∀ p ∈ s.positions, inBoard p)
    (h3 : s.direction ∈ arrowDirs)
    (h4 : s.positions.length ≤ s.length)
    (h5 : s.length ≤ s.positions.length + 1) :
    SnakeInv (move s) ∧ (move s).positions.length = (move s).length := by
  have hlen := move_length_eq h1 h4 h5
  by_cases hc : new_head_position s ∈ s.positions.drop 2
  · rw [move_of_mem hc] at hlen ⊢
    refine ⟨⟨by simp [reset], ?_, ?_, ?_, ?_⟩, hlen⟩
    · intro p hp
      simp only [reset, List.mem_singleton] at hp
      rw [hp]
      exact (by decide : inBoard (SCREEN_WIDTH / 2, SCREEN_HEIGHT / 2))
    · exact (by decide : (GRID_SIZE, (0 : ℤ)) ∈ arrowDirs)
    · left
      simp [reset]
    · exact trivial
  · have hppos := move_positions_of_not_mem hc
    have hplen := move_length_of_not_mem hc
    have hpdir := move_direction_of_not_mem hc
    refine ⟨⟨?_, ?_, ?_, ?_, ?_⟩, hlen⟩
    · intro hnil
      rw [hnil] at hlen
      rw [hplen] at hlen
      simp only [List.length_nil] at hlen
      have hpos : 0 < s.positions.length := List.length_pos.mpr h1
      omega
    · intro p hp
      rw [hppos] at hp
      have hp' : p ∈ new_head_position s :: s.positions := by
        revert hp
        split
        · intro hp
          exact List.dropLast_subset _ hp
        · intro hp
          exact hp
      rcases List.mem_cons.mp hp' with h | h
      · rw [h]
        exact wrap_inBoard _
      · exact h2 p h
    · rw [hpdir]
      exact h3
    · left
      rw [hlen]
    · rw [hppos, hpdir]
      cases hps : s.positions with
      | nil => exact absurd hps h1
      | cons p0 rest =>
          have hnh : new_head_position s
              = wrap (p0.1 + s.direction.1, p0.2 + s.direction.2) := by
            unfold new_head_position get_head_position
            rw [hps, List.headI_cons]
          split
          next h =>
            cases rest with
            | nil => exact trivial
            | cons p1 rest' =>
                rw [List.dropLast_cons₂, List.dropLast_cons₂]
                exact hnh
          next h => exact hnh

theorem reachable_snakeInv (g : Game) (hg : Reachable g) : SnakeInv g.snake := by
  induction hg with
  | init rx ry hx0 hx1 hy0 hy1 =>
      exact (⟨by decide, by decide, by decide, by decide, trivial⟩ :
        SnakeInv initialSnake)
  | tick g reqs rx ry hreqs hx0 hx1 hy0 hy1 hg ih =>
      obtain ⟨h1, h2, h3, h4, h5⟩ := ih
      have e1 := applyRequests_positions reqs g.snake
      have e2 := applyRequests_length reqs g.snake
      have e3 := applyRequests_dir_mem hreqs h3
      have hmv := snakeInv_move (s := applyRequests reqs g.snake)
        (by rw [e1]; exact h1) (by rw [e1]; exact h2) e3
        (by rw [e1, e2]; omega) (by rw [e1, e2]; omega)
      simp only [mainTick]
      split
      next h =>
        obtain ⟨⟨i1, i2, i3, i4, i5⟩, ilen⟩ := hmv
        exact ⟨i1, i2, i3, by right; dsimp only; omega, i5⟩
      next h => exact hmv.1

theorem arrowDirs_bounds {d : Cell} (hd : d ∈ arrowDirs) :
    -20 ≤ d.1 ∧ d.1 ≤ 20 ∧ -20 ≤ d.2 ∧ d.2 ≤ 20 := by
  simp only [arrowDirs, List.mem_cons, List.not_mem_nil, or_false] at hd
  rcases hd with rfl | rfl | rfl | rfl <;> decide

theorem arrow_ne_neg {d : Cell} (hd : d ∈ arrowDirs) : d ≠ (-d.1, -d.2) := by
  simp only [arrowDirs, List.mem_cons, List.not_mem_nil, or_false] at hd
  rcases hd with rfl | rfl | rfl | rfl <;> decide

/-- Taking one wrapped step along `d` from a canonical cell `p` and then one
wrapped step along `d'` returns to `p` only if `d'` is the exact reversal of
`d`. -/
theorem wrap_step_ne {p d d' : Cell} (hp : inBoard p)
    (hd : d ∈ arrowDirs) (hd' : d' ∈ arrowDirs)
    (hne : d' ≠ (-d.1, -d.2)) :
    wrap ((wrap (p.1 + d.1, p.2 + d.2)).1 + d'.1,
          (wrap (p.1 + d.1, p.2 + d.2)).2 + d'.2) ≠ p := by
  intro heq
  rw [Prod.ext_iff] at heq
  obtain ⟨hx, hy⟩ := heq
  obtain ⟨hp1, hp2, hp3, hp4⟩ := hp
  obtain ⟨ha1, ha2, ha3, ha4⟩ := arrowDirs_bounds hd
  obtain ⟨hb1, hb2, hb3, hb4⟩ := arrowDirs_bounds hd'
  apply hne
  rw [Prod.ext_iff]
  simp only [wrap, SCREEN_WIDTH, SCREEN_HEIGHT] at hx hy
  constructor <;> omega

/-- Applying at most one in-range request to a snake whose direction is an
arrow direction can never produce the exact reversal of that direction. -/
theorem applyRequests_single_no_reverse {s : Snake} {reqs : List Cell}
    (hd : s.direction ∈ arrowDirs)
    (hreqs : ∀ r ∈ reqs, r ∈ arrowDirs)
    (hlen : reqs.length ≤ 1) :
    (applyRequests reqs s).direction ≠
      (-(s.direction.1), -(s.direction.2)) := by
  cases reqs with
  | nil => exact arrow_ne_neg hd
  | cons r t =>
      cases t with
      | cons r' t' => simp at hlen
      | nil =>
          show (update_direction s r).direction ≠ _
          simp only [update_direction]
          split
          next h => exact (not_congr (neg_pair_eq_iff r s.direction)).mp h
          next h => exact arrow_ne_neg hd

/-- C4 counterexample: the claim fails as stated because a tick may apply
several direction requests before one `move`: from a reachable two-cell
state moving right, the requests `[UP, LEFT]` leave the direction fully
reversed, and the wrapped new head computed by `move` is exactly
`positions[1]` (the neck). -/
theorem neck_claim_cex :
    ¬ ∀ g : Game, Reachable g → ∀ reqs : List Cell,
        (∀ r ∈ reqs, r ∈ arrowDirs) →
        ∀ p0 p1 : Cell, ∀ rest : List Cell,
          (applyRequests reqs g.snake).positions = p0 :: p1 :: rest →
          new_head_position (applyRequests reqs g.snake) ≠ p1 := by
  intro h
  have h0 : Reachable { snake := initialSnake, apple := randomize_position 17 12 } :=
    Reachable.init 17 12 (by decide) (by decide) (by decide) (by decide)
  have h1 := Reachable.tick _ [] 0 0
    (fun r hr => absurd hr (List.not_mem_nil r))
    (by decide) (by decide) (by decide) (by decide) h0
  have h2 := Reachable.tick _ [] 0 0
    (fun r hr => absurd hr (List.not_mem_nil r))
    (by decide) (by decide) (by decide) (by decide) h1
  have e2 : mainTick [] 0 0 (mainTick [] 0 0
        { snake := initialSnake, apple := randomize_position 17 12 })
      = { snake := Snake.mk 2 [((360 : ℤ), (240 : ℤ)), (340, 240)] (20, 0) (360, 240),
          apple := ((0 : ℤ), (0 : ℤ)) } := by decide
  rw [e2] at h2
  exact h _ h2 [UP, LEFT] (by decide) (360, 240) (340, 240) [] (by decide)
    (by decide)

/-- C4 (amended): in every reachable game state, if at most one arrow-key
direction request is applied before `move` — one `update_direction` per tick
— then the wrapped new head cell computed by `move` never coincides with
`positions[1]` (the neck), so exempting the neck from the self-collision
check masks nothing; with two or more requests in one tick this can fail. -/
theorem neck_unreachable_single_request (g : Game) (hg : Reachable g)
    (reqs : List Cell) (hreqs : ∀ r ∈ reqs, r ∈ arrowDirs)
    (hlen : reqs.length ≤ 1) (p0 p1 : Cell) (rest : List Cell)
    (hpos : (applyRequests reqs g.snake).positions = p0 :: p1 :: rest) :
    new_head_position (applyRequests reqs g.snake) ≠ p1 := by
  obtain ⟨h1, h2, h3, h4, h5⟩ := reachable_snakeInv g hg
  have e1 := applyRequests_positions reqs g.snake
  have hpos' : g.snake.positions = p0 :: p1 :: rest := by rw [← e1, hpos]
  have hneck : p0 = wrap (p1.1 + g.snake.direction.1,
      p1.2 + g.snake.direction.2) := by
    rw [hpos'] at h5
    exact h5
  have hp1 : inBoard p1 := h2 p1 (by rw [hpos']; simp)
  have hd' := applyRequests_dir_mem hreqs h3
  have hne := applyRequests_single_no_reverse h3 hreqs hlen
  have hnh : new_head_position (applyRequests reqs g.snake)
      = wrap (p0.1 + (applyRequests reqs g.snake).direction.1,
              p0.2 + (applyRequests reqs g.snake).direction.2) := by
    unfold new_head_position get_head_position
    rw [hpos, List.headI_cons]
  rw [hnh, hneck]
  exact wrap_step_ne hp1 h3 hd' hne

/-- C5 counterexample: `len(positions) ∈ {length, length+1}` does not hold
at every reachable point: after a tick in which the snake eats the apple,
the loop has incremented `length` to 2 while `positions` still holds a
single cell, so `len(positions) = length - 1`. -/
theorem positions_length_claim_cex :
    ¬ ∀ g : Game, Reachable g →
        (g.snake.positions.length = g.snake.length ∨
          g.snake.positions.length = g.snake.length + 1) := by
  intro h
  have h0 : Reachable { snake := initialSnake, apple := randomize_position 17 12 } :=
    Reachable.init 17 12 (by decide) (by decide) (by decide) (by decide)
  have h1 := Reachable.tick _ [] 0 0
    (fun r hr => absurd hr (List.not_mem_nil r))
    (by decide) (by decide) (by decide) (by decide) h0
  have e1 : mainTick [] 0 0 { snake := initialSnake, apple := randomize_position 17 12 }
      = { snake := Snake.mk 2 [((340 : ℤ), (240 : ℤ))] (20, 0) (340, 240),
          apple := ((0 : ℤ), (0 : ℤ)) } := by decide
  rw [e1] at h1
  exact absurd (h _ h1) (by decide)

/-- C5 (amended): at every reachable tick boundary
`len(positions) ∈ {length - 1, length}` (the value `length - 1` occurs after
a tick that incremented `length` on an apple overlap); `length + 1` occurs
only transiently inside `move` between the prepend and the trim, and after
any tick's `move` completes its trimming `len(positions)` is exactly
`length`. -/
theorem positions_length_settles (g : Game) (hg : Reachable g) :
    (g.snake.positions.length = g.snake.length ∨
      g.snake.positions.length + 1 = g.snake.length) ∧
    (∀ reqs : List Cell,
      (move (applyRequests reqs g.snake)).positions.length
        = (move (applyRequests reqs g.snake)).length) := by
  obtain ⟨h1, h2, h3, h4, h5⟩ := reachable_snakeInv g hg
  refine ⟨h4, fun reqs => ?_⟩
  have e1 := applyRequests_positions reqs g.snake
  have e2 := applyRequests_length reqs g.snake
  exact move_length_eq (by rw [e1]; exact h1) (by rw [e1, e2]; omega)
    (by rw [e1, e2]; omega)

/-- Witness for C4 (amended): in the reachable two-cell state moving right,
a single `UP` request cannot make the new head land on the neck. -/
theorem neck_unreachable_single_request_witness :
    (∀ r ∈ ([UP] : List Cell), r ∈ arrowDirs) ∧
    ([UP] : List Cell).length ≤ 1 ∧
    (applyRequests [UP]
        (Snake.mk 2 [((360 : ℤ), (240 : ℤ)), (340, 240)] (20, 0) (360, 240))).positions
      = [(360, 240), (340, 240)] ∧
    new_head_position (applyRequests [UP]
        (Snake.mk 2 [((360 : ℤ), (240 : ℤ)), (340, 240)] (20, 0) (360, 240)))
      ≠ ((340 : ℤ), (240 : ℤ)) := by
  refine ⟨by decide, by decide, by decide, ?_⟩
  have h0 : Reachable { snake := initialSnake, apple := randomize_position 17 12 } :=
    Reachable.init 17 12 (by decide) (by decide) (by decide) (by decide)
  have h1 := Reachable.tick _ [] 0 0
    (fun r hr => absurd hr (List.not_mem_nil r))
    (by decide) (by decide) (by decide) (by decide) h0
  have h2 := Reachable.tick _ [] 0 0
    (fun r hr => absurd hr (List.not_mem_nil r))
    (by decide) (by decide) (by decide) (by decide) h1
  have e2 : mainTick [] 0 0 (mainTick [] 0 0
        { snake := initialSnake, apple := randomize_position 17 12 })
      = { snake := Snake.mk 2 [((360 : ℤ), (240 : ℤ)), (340, 240)] (20, 0) (360, 240),
          apple := ((0 : ℤ), (0 : ℤ)) } := by decide
  rw [e2] at h2
  exact neck_unreachable_single_request _ h2 [UP] (by decide) (by decide)
    (360, 240) (340, 240) [] (by decide)

/-- Witness for C5 (amended): the reachable state right after the snake ate
the apple has `len(positions) = length - 1`, and the next move settles
`len(positions)` back to `length`. -/
theorem positions_length_settles_witness :
    ((Snake.mk 2 [((340 : ℤ), (240 : ℤ))] (20, 0) (340, 240)).positions.length
        = (Snake.mk 2 [((340 : ℤ), (240 : ℤ))] (20, 0) (340, 240)).length ∨
      (Snake.mk 2 [((340 : ℤ), (240 : ℤ))] (20, 0) (340, 240)).positions.length + 1
        = (Snake.mk 2 [((340 : ℤ), (240 : ℤ))] (20, 0) (340, 240)).length) ∧
    (move (applyRequests []
        (Snake.mk 2 [((340 : ℤ), (240 : ℤ))] (20, 0) (340, 240)))).positions.length
      = (move (applyRequests []
        (Snake.mk 2 [((340 : ℤ), (240 : ℤ))] (20, 0) (340, 240)))).length := by
  have h0 : Reachable { snake := initialSnake, apple := randomize_position 17 12 } :=
    Reachable.init 17 12 (by decide) (by decide) (by decide) (by decide)
  have h1 := Reachable.tick _ [] 0 0
    (fun r hr => absurd hr (List.not_mem_nil r))
    (by decide) (by decide) (by decide) (by decide) h0
  have e1 : mainTick [] 0 0 { snake := initialSnake, apple := randomize_position 17 12 }
      = { snake := Snake.mk 2 [((340 : ℤ), (240 : ℤ))] (20, 0) (340, 240),
          apple := ((0 : ℤ), (0 : ℤ)) } := by decide
  rw [e1] at h1
  exact ⟨(positions_length_settles _ h1).1, (positions_length_settles _ h1).2 []⟩

end TheSnake
